import Mathlib

/-!
Shallow embedding of `netflix_analyzer.py` (normalization pipeline and
binge-session segmentation), with the specification's claims settled as
theorems below the definitions.

Timestamps are modelled as whole seconds since the Unix epoch (`Int`);
`pd.Timedelta(hours=6)` is `6 * 3600` of these ticks, and the float
`duration_hours` column is modelled as a rational.
-/

namespace Netflix

/-! ### Calendar helpers: the `.dt` accessors used by `clean_data` -/

/-- Days since the epoch (floor division, as calendar days extend below 1970). -/
def daysFromEpoch (t : Int) : Int := Int.fdiv t 86400

/-- `dt.hour`: hour of day, 0–23. -/
def hourOf (t : Int) : Int := Int.fdiv (Int.emod t 86400) 3600

/-- Civil date (year, month, day) from a day count since 1970-01-01,
by the standard Gregorian era decomposition. -/
def civilOfDays (z0 : Int) : Int × Int × Int :=
  let z := z0 + 719468
  let era := Int.fdiv z 146097
  let doe := z - era * 146097
  let yoe := Int.fdiv (doe - Int.fdiv doe 1460 + Int.fdiv doe 36524 - Int.fdiv doe 146096) 365
  let y := yoe + era * 400
  let doy := doe - (365 * yoe + Int.fdiv yoe 4 - Int.fdiv yoe 100)
  let mp := Int.fdiv (5 * doy + 2) 153
  let d := doy - Int.fdiv (153 * mp + 2) 5 + 1
  let m := mp + (if mp < 10 then 3 else -9)
  (y + (if m ≤ 2 then 1 else 0), m, d)

/-- `dt.year`. -/
def yearOf (t : Int) : Int := (civilOfDays (daysFromEpoch t)).1

/-- `dt.month`. -/
def monthOf (t : Int) : Int := (civilOfDays (daysFromEpoch t)).2.1

/-- `dt.day_name()`: 1970-01-01 was a Thursday, so day 0 maps to index 4. -/
def dayNameOf (t : Int) : String :=
  match (Int.emod (daysFromEpoch t + 4) 7).toNat with
  | 0 => "Sunday"
  | 1 => "Monday"
  | 2 => "Tuesday"
  | 3 => "Wednesday"
  | 4 => "Thursday"
  | 5 => "Friday"
  | _ => "Saturday"

/-! ### Movie/TV classification: `title.str.contains(r'\(\d{4}\)', na=False)` -/

/-- Starts of the 10-codepoint decimal-digit runs of Unicode general
category Nd (Unicode 15.0): the character class Python's `re` engine
matches for `\d` on `str` patterns. Each entry `s` stands for the run
`s..s+9` (the five consecutive runs at `0x1D7CE..0x1D7FF` are the
mathematical digit alphabets). -/
def ndDigitRunStarts : List Nat :=
  [0x30, 0x660, 0x6F0, 0x7C0, 0x966, 0x9E6, 0xA66, 0xAE6, 0xB66, 0xBE6,
   0xC66, 0xCE6, 0xD66, 0xDE6, 0xE50, 0xED0, 0xF20, 0x1040, 0x1090, 0x17E0,
   0x1810, 0x1946, 0x19D0, 0x1A80, 0x1A90, 0x1B50, 0x1BB0, 0x1C40, 0x1C50,
   0xA620, 0xA8D0, 0xA900, 0xA9D0, 0xA9F0, 0xAA50, 0xABF0, 0xFF10,
   0x104A0, 0x10D30, 0x11066, 0x110F0, 0x11136, 0x111D0, 0x112F0, 0x11450,
   0x114D0, 0x11650, 0x116C0, 0x11730, 0x118E0, 0x11950, 0x11C50, 0x11D50,
   0x11DA0, 0x11F50, 0x16A60, 0x16AC0, 0x16B50, 0x1D7CE, 0x1D7D8, 0x1D7E2,
   0x1D7EC, 0x1D7F6, 0x1E140, 0x1E2F0, 0x1E4F0, 0x1E950, 0x1FBF0]

/-- `\d` of the source's regex: any Unicode decimal digit (category Nd),
not only ASCII `0`–`9`. -/
def isPyDigit (c : Char) : Bool :=
  ndDigitRunStarts.any (fun s => s ≤ c.toNat && c.toNat ≤ s + 9)

/-- Does the character list begin with a literal `(`, four digits of the
class `isD`, `)`? One anchored attempt of the pattern. -/
def startsWithYearParenBy (isD : Char → Bool) : List Char → Bool
  | '(' :: a :: b :: c :: d :: ')' :: _ => isD a && isD b && isD c && isD d
  | _ => false

/-- `re.search` semantics: try the anchored pattern at every suffix. -/
def containsYearParenAuxBy (isD : Char → Bool) : List Char → Bool
  | [] => false
  | c :: rest =>
    startsWithYearParenBy isD (c :: rest) || containsYearParenAuxBy isD rest

/-- The classification heuristic on a whole title string:
`re.search(r'\(\d{4}\)', title)`, with `\d` the Unicode class. -/
def containsYearParen (s : String) : Bool :=
  containsYearParenAuxBy isPyDigit s.data

/-! ### Normalization: `clean_data` -/

/-- A raw input row after column reconciliation: a `title` column,
a `date` column (still an unparsed string), optional profile name. -/
structure RawRow where
  title : String
  date : String
  profile_name : Option String
  deriving DecidableEq, Repr

/-- A normalized viewing record: row of the cleaned frame. -/
structure Record where
  title : String
  date : Int
  year : Int
  month : Int
  day_of_week : String
  hour : Int
  is_movie : Bool
  is_tv_show : Bool
  deriving DecidableEq, Repr

/-- Derived-column computation of `clean_data` for one row, given the
parsed timestamp `d` of its date string. -/
def mkRecord (row : RawRow) (d : Int) : Record :=
  { title := row.title
    date := d
    year := yearOf d
    month := monthOf d
    day_of_week := dayNameOf d
    hour := hourOf d
    is_movie := containsYearParen row.title
    is_tv_show := !containsYearParen row.title }

inductive CleanError where
  | malformedTimestamp (raw : String)
  | noFrame
  deriving DecidableEq, Repr

/-- `clean_data`: `pd.to_datetime` raises on the first unparseable date
(the parse grammar of the library is abstracted as `p`); on success every
row yields one normalized record, in input order. -/
def cleanData (p : String → Option Int) : List RawRow → Except CleanError (List Record)
  | [] => Except.ok []
  | row :: rows =>
    match p row.date with
    | none => Except.error (CleanError.malformedTimestamp row.date)
    | some d => Except.map (fun out => mkRecord row d :: out) (cleanData p rows)

/-! ### `show_basic_stats` -/

inductive StatsError where
  | natStrftime
  | divisionByZero
  deriving DecidableEq, Repr

structure BasicStats where
  total_views : Nat
  range_start : Int
  range_end : Int
  active_days : Nat
  avg_per_day : Rat
  movies : Nat
  tv_shows : Nat
  movies_pct : Rat
  tv_pct : Rat
  deriving DecidableEq, Repr

/-- `df['date'].min()`: `none` on an empty column (pandas `NaT`). -/
def minDate : List Record → Option Int
  | [] => none
  | r :: rs => some (rs.foldl (fun m x => min m x.date) r.date)

/-- `df['date'].max()`: `none` on an empty column (pandas `NaT`). -/
def maxDate : List Record → Option Int
  | [] => none
  | r :: rs => some (rs.foldl (fun m x => max m x.date) r.date)

/-- `df['date'].dt.date.nunique()`: distinct calendar days. -/
def activeDays (l : List Record) : Nat :=
  ((l.map (fun r => daysFromEpoch r.date)).dedup).length

def countMovies (l : List Record) : Nat := (l.filter (fun r => r.is_movie)).length

def countTvShows (l : List Record) : Nat := (l.filter (fun r => r.is_tv_show)).length

/-- `show_basic_stats`: formatting `min`/`max` of an empty date column fails
first (`NaT.strftime` raises); the `total_views/active_days` and percentage
divisions raise `ZeroDivisionError` when their denominators are zero. -/
def showBasicStats (l : List Record) : Except StatsError BasicStats :=
  match minDate l, maxDate l with
  | some mn, some mx =>
    let total := l.length
    let active := activeDays l
    if active = 0 then Except.error StatsError.divisionByZero
    else if total = 0 then Except.error StatsError.divisionByZero
    else
      Except.ok
        { total_views := total
          range_start := mn
          range_end := mx
          active_days := active
          avg_per_day := (total : Rat) / (active : Rat)
          movies := countMovies l
          tv_shows := countTvShows l
          movies_pct := (countMovies l : Rat) / (total : Rat) * 100
          tv_pct := (countTvShows l : Rat) / (total : Rat) * 100 }
  | _, _ => Except.error StatsError.natStrftime

/-! ### Segmentation: `binge_analysis` -/

instance : DecidableRel (fun a b : Record => a.date ≤ b.date) :=
  fun a b => Int.decLe a.date b.date

/-- `df.sort_values('date')`, modelled as a stable sort ascending by
timestamp. (pandas' default sort kind is quicksort, which does not
guarantee stability; the session statistics proved below do not depend
on the order of equal timestamps.) -/
def sortByDate (l : List Record) : List Record :=
  List.insertionSort (fun a b => a.date ≤ b.date) l

/-- Tail of the session-id assignment: `prev` is the predecessor's
timestamp in sorted order, `sid` the running `new_session.cumsum()` value;
a record opens a new session exactly when its delta to `prev` is strictly
greater than the threshold. -/
def sessionIdTail (thr : Int) (prev : Int) (sid : Nat) : List Record → List (Record × Nat)
  | [] => []
  | r :: rs =>
    if r.date - prev > thr then (r, sid + 1) :: sessionIdTail thr r.date (sid + 1) rs
    else (r, sid) :: sessionIdTail thr r.date sid rs

/-- `session_id` column: the first sorted record has `time_diff = NaT`,
which compares `False` against the threshold, so it gets id 0. -/
def assignSessions (thr : Int) : List Record → List (Record × Nat)
  | [] => []
  | r :: rs => (r, 0) :: sessionIdTail thr r.date 0 rs

/-- Date-only image of `sessionIdTail` (the id assignment reads only
the `date` column). -/
def sessionIdTailD (thr : Int) (prev : Int) (sid : Nat) : List Int → List (Int × Nat)
  | [] => []
  | d :: ds =>
    if d - prev > thr then (d, sid + 1) :: sessionIdTailD thr d (sid + 1) ds
    else (d, sid) :: sessionIdTailD thr d sid ds

/-- Date-only image of `assignSessions`. -/
def assignD (thr : Int) : List Int → List (Int × Nat)
  | [] => []
  | d :: ds => (d, 0) :: sessionIdTailD thr d 0 ds

structure SessionRow where
  session_id : Nat
  views_count : Nat
  session_start : Int
  session_end : Int
  duration_hours : Rat
  deriving DecidableEq, Repr

/-- Group minimum (`'date': 'min'`); the empty case is never reached,
as every session id labels at least one record. -/
def minD : List Int → Int
  | [] => 0
  | x :: xs => xs.foldl min x

/-- Group maximum (`'date': 'max'`). -/
def maxD : List Int → Int
  | [] => 0
  | x :: xs => xs.foldl max x

/-- Number of groups of `groupby('session_id')`: ids are the cumulative
sum of booleans starting at 0, so the keys are exactly `0..last`. -/
def numSessionsOf (ad : List (Int × Nat)) : Nat :=
  match ad.getLast? with
  | none => 0
  | some q => q.2 + 1

/-- One aggregated row of `session_stats`: member count
(`'title': 'count'`, titles are non-null), min/max timestamp, and the
derived `duration_hours = total_seconds / 3600` column. -/
def sessionRowOf (ad : List (Int × Nat)) (sid : Nat) : SessionRow :=
  let g := (ad.filter (fun q => q.2 == sid)).map (fun q => q.1)
  { session_id := sid
    views_count := g.length
    session_start := minD g
    session_end := maxD g
    duration_hours := ((maxD g - minD g : Int) : Rat) / 3600 }

/-- The full `session_stats` table, one row per session id in key order. -/
def tableOfAssigned (ad : List (Int × Nat)) : List SessionRow :=
  (List.range (numSessionsOf ad)).map (sessionRowOf ad)

/-- The (date, session_id) pairs of the sorted, annotated frame. -/
def datedAssign (thr : Int) (l : List Record) : List (Int × Nat) :=
  (assignSessions thr (sortByDate l)).map (fun q => (q.1.date, q.2))

/-- The full session table of `binge_analysis` before its final filter. -/
def sessionTable (thr : Int) (l : List Record) : List SessionRow :=
  tableOfAssigned (datedAssign thr l)

/-- `binge_threshold = pd.Timedelta(hours=6)`, in seconds. -/
def bingeThreshold : Int := 21600

/-- `binge_analysis` as seen by its caller: it filters the session table
to `views_count > 1` rows and returns only those. -/
def bingeAnalysis (l : List Record) : List SessionRow :=
  (sessionTable bingeThreshold l).filter (fun s => 1 < s.views_count)

/-! ### The pipeline of `main` -/

inductive RunError where
  | clean (e : CleanError)
  | stats (e : StatsError)
  deriving DecidableEq, Repr

/-- `main` after loading: clean, basic stats, binge analysis; any raised
error terminates the run. -/
def runAnalysis (p : String → Option Int) (rows : List RawRow) :
    Except RunError (List Record × BasicStats × List SessionRow) :=
  match cleanData p rows with
  | Except.error e => Except.error (RunError.clean e)
  | Except.ok recs =>
    match showBasicStats recs with
    | Except.error e => Except.error (RunError.stats e)
    | Except.ok st => Except.ok (recs, st, bingeAnalysis recs)

/-! ### Helper lemmas on the session-id assignment -/

/-- The step relation the `session_id` column satisfies between
consecutive rows of the sorted frame. -/
def sidStep (thr : Int) (p q : Record × Nat) : Prop :=
  q.2 = if q.1.date - p.1.date > thr then p.2 + 1 else p.2

theorem sessionIdTail_map_fst (thr : Int) :
    ∀ (prev : Int) (sid : Nat) (l : List Record),
      (sessionIdTail thr prev sid l).map Prod.fst = l
  | _, _, [] => rfl
  | prev, sid, r :: rs => by
    by_cases h : r.date - prev > thr
    · rw [sessionIdTail, if_pos h]
      simp [sessionIdTail_map_fst thr r.date (sid + 1) rs]
    · rw [sessionIdTail, if_neg h]
      simp [sessionIdTail_map_fst thr r.date sid rs]

theorem assignSessions_map_fst (thr : Int) (l : List Record) :
    (assignSessions thr l).map Prod.fst = l := by
  cases l with
  | nil => rfl
  | cons r rs =>
    rw [assignSessions]
    simp [sessionIdTail_map_fst thr r.date 0 rs]

theorem chain'_sessionIdTail (thr : Int) :
    ∀ (l : List Record) (p : Record × Nat),
      List.Chain' (sidStep thr) (p :: sessionIdTail thr p.1.date p.2 l)
  | [], p => List.chain'_singleton p
  | r :: rs, p => by
    by_cases h : r.date - p.1.date > thr
    · rw [sessionIdTail, if_pos h]
      exact List.Chain'.cons (by simp [sidStep, h])
        (chain'_sessionIdTail thr rs (r, p.2 + 1))
    · rw [sessionIdTail, if_neg h]
      exact List.Chain'.cons (by simp [sidStep, h])
        (chain'_sessionIdTail thr rs (r, p.2))

theorem assignSessions_chain' (thr : Int) (l : List Record) :
    List.Chain' (sidStep thr) (assignSessions thr l) := by
  cases l with
  | nil => exact List.chain'_nil
  | cons r rs =>
    rw [assignSessions]
    exact chain'_sessionIdTail thr rs (r, 0)

instance : IsTotal Record (fun a b => a.date ≤ b.date) :=
  ⟨fun a b => Int.le_total a.date b.date⟩

instance : IsTrans Record (fun a b => a.date ≤ b.date) :=
  ⟨fun _ _ _ hab hbc => le_trans hab hbc⟩

theorem sortByDate_perm (l : List Record) : List.Perm (sortByDate l) l :=
  List.perm_insertionSort _ l

theorem sortByDate_sorted (l : List Record) :
    List.Sorted (fun a b : Record => a.date ≤ b.date) (sortByDate l) :=
  List.sorted_insertionSort _ l

/-! ### Claim theorems -/

/-- C1: the sessions produced by the segmenter partition the time-sorted
record sequence: the sorted frame is a permutation of the input and is
sorted by timestamp, every sorted record is assigned exactly one session
id (`map Prod.fst` returns the sorted frame unchanged), the first sorted
record starts session 0 and is never itself a boundary, and consecutive
sorted records satisfy the step relation: the session id increments
exactly when the time delta to the predecessor exceeds the threshold,
making sessions contiguous runs. -/
theorem claim1_segmentation_partition (thr : Int) (l : List Record) :
    List.Perm (sortByDate l) l ∧
    List.Sorted (fun a b : Record => a.date ≤ b.date) (sortByDate l) ∧
    (assignSessions thr (sortByDate l)).map Prod.fst = sortByDate l ∧
    ((assignSessions thr (sortByDate l)).map Prod.snd).head? =
      ((sortByDate l).head?.map fun _ => 0) ∧
    List.Chain' (sidStep thr) (assignSessions thr (sortByDate l)) := by
  refine ⟨sortByDate_perm l, sortByDate_sorted l, assignSessions_map_fst thr _, ?_,
    assignSessions_chain' thr _⟩
  cases hs : sortByDate l with
  | nil => simp [assignSessions]
  | cons r rs => simp [assignSessions]

/-- C2: in sorted order, two consecutive records carry different session
ids exactly when their timestamp delta is strictly greater than the
6-hour threshold; in particular records exactly `bingeThreshold` apart
(or sharing a timestamp) stay in one session and records one tick more
apart are split. -/
theorem claim2_session_boundary (l : List Record) (i : Nat)
    (h : i + 1 < (assignSessions bingeThreshold (sortByDate l)).length) :
    (((assignSessions bingeThreshold (sortByDate l)).get ⟨i + 1, h⟩).2 ≠
        ((assignSessions bingeThreshold (sortByDate l)).get
          ⟨i, Nat.lt_of_succ_lt h⟩).2) ↔
      bingeThreshold <
        ((assignSessions bingeThreshold (sortByDate l)).get ⟨i + 1, h⟩).1.date -
          ((assignSessions bingeThreshold (sortByDate l)).get
            ⟨i, Nat.lt_of_succ_lt h⟩).1.date := by
  have hc := assignSessions_chain' bingeThreshold (sortByDate l)
  rw [List.chain'_iff_get] at hc
  have hstep := hc i (by omega)
  rw [sidStep] at hstep
  by_cases hgt :
      ((assignSessions bingeThreshold (sortByDate l)).get ⟨i + 1, h⟩).1.date -
        ((assignSessions bingeThreshold (sortByDate l)).get
          ⟨i, Nat.lt_of_succ_lt h⟩).1.date > bingeThreshold
  · rw [if_pos hgt] at hstep
    constructor
    · intro _
      exact hgt
    · intro _
      omega
  · rw [if_neg hgt] at hstep
    constructor
    · intro hne
      exact absurd hstep hne
    · intro hlt
      exact absurd hlt hgt

/-- Concrete records used by the witnesses: 10:00, 12:00 and next-day
20:00 of 2024-01-01, the concrete scenario of the specification. -/
def sampleRec (title : String) (t : Int) : Record :=
  mkRecord { title := title, date := "", profile_name := none } t

def sampleList : List Record :=
  [sampleRec "A" 0, sampleRec "B" 21600, sampleRec "C" 43201]

theorem claim2_session_boundary_witness :
    (((assignSessions bingeThreshold (sortByDate sampleList)).get
        ⟨1, by decide⟩).2 =
      ((assignSessions bingeThreshold (sortByDate sampleList)).get
        ⟨0, by decide⟩).2) ∧
    (((assignSessions bingeThreshold (sortByDate sampleList)).get
        ⟨2, by decide⟩).2 ≠
      ((assignSessions bingeThreshold (sortByDate sampleList)).get
        ⟨1, by decide⟩).2) := by
  constructor
  · have h2 := claim2_session_boundary sampleList 0 (by decide)
    have hnot : ¬ (bingeThreshold <
        ((assignSessions bingeThreshold (sortByDate sampleList)).get
          ⟨1, by decide⟩).1.date -
        ((assignSessions bingeThreshold (sortByDate sampleList)).get
          ⟨0, by decide⟩).1.date) := by decide
    by_contra hne
    exact hnot (h2.mp hne)
  · exact (claim2_session_boundary sampleList 1 (by decide)).mpr (by decide)

/-- The session table of a one-record input: one session, one view,
zero duration. -/
theorem sessionTable_single (thr : Int) (r : Record) :
    sessionTable thr [r] =
      [{ session_id := 0, views_count := 1, session_start := r.date,
         session_end := r.date, duration_hours := 0 }] := by
  show [sessionRowOf [(r.date, 0)] 0] = _
  simp [sessionRowOf, minD, maxD, List.filter]

/-- C3 counterexample: on a single-record input the value `binge_analysis`
returns to its caller is the empty table, not a table with exactly one
session of `view_count = 1`. -/
theorem claim3_counterexample :
    bingeAnalysis [sampleRec "A" 0] = [] ∧
    (bingeAnalysis [sampleRec "A" 0]).length ≠ 1 := by
  constructor
  · rw [bingeAnalysis, sessionTable_single]
    rfl
  · rw [bingeAnalysis, sessionTable_single]
    decide

/-- C3 amended: `binge_analysis` builds the full session table internally
— for a single-record input that table has exactly one session with
`views_count = 1` and `duration_hours = 0` — but it filters to
`views_count > 1` before returning, so its returned result is the
filtered binge-session table (empty for a single-record input), not the
full table. -/
theorem claim3_returned_table (r : Record) (l : List Record) :
    sessionTable bingeThreshold [r] =
      [{ session_id := 0, views_count := 1, session_start := r.date,
         session_end := r.date, duration_hours := 0 }] ∧
    bingeAnalysis [r] = [] ∧
    bingeAnalysis l =
      (sessionTable bingeThreshold l).filter (fun s => 1 < s.views_count) := by
  refine ⟨sessionTable_single bingeThreshold r, ?_, rfl⟩
  rw [bingeAnalysis, sessionTable_single]
  rfl

/-- A trivial parse function (every date string parses to the epoch),
used to evaluate the pipeline on concrete inputs. -/
def trivialParse (_s : String) : Option Int := some 0

/-- C5 counterexample: on an empty input the run does not complete all
aggregates cleanly — `show_basic_stats` fails (formatting the min/max of
an empty date column raises, and the views-per-active-day quotient has a
zero denominator), so the pipeline terminates with an error. -/
theorem claim5_counterexample :
    runAnalysis trivialParse [] =
      Except.error (RunError.stats StatsError.natStrftime) := rfl

/-- C5 amended: an empty input is accepted by normalization and
segmentation — empty normalized sequence, empty session table, empty
binge table — but `show_basic_stats` errors on empty input (min/max of
the empty date column cannot be formatted, and the average-views-per-
active-day division has denominator zero), so the full run terminates
with that error rather than completing. -/
theorem claim5_empty_input (p : String → Option Int) (thr : Int) :
    cleanData p [] = Except.ok [] ∧
    sessionTable thr [] = [] ∧
    bingeAnalysis [] = [] ∧
    showBasicStats [] = Except.error StatsError.natStrftime ∧
    runAnalysis p [] = Except.error (RunError.stats StatsError.natStrftime) :=
  ⟨rfl, rfl, rfl, rfl, rfl⟩

/-! ### Determinism: the session table reads only the sorted dates -/

theorem sessionIdTail_map_date (thr : Int) :
    ∀ (prev : Int) (sid : Nat) (l : List Record),
      (sessionIdTail thr prev sid l).map (fun q => (q.1.date, q.2)) =
        sessionIdTailD thr prev sid (l.map (fun r => r.date))
  | _, _, [] => rfl
  | prev, sid, r :: rs => by
    by_cases h : r.date - prev > thr
    · simp [sessionIdTail, sessionIdTailD, h,
        sessionIdTail_map_date thr r.date (sid + 1) rs]
    · simp [sessionIdTail, sessionIdTailD, h,
        sessionIdTail_map_date thr r.date sid rs]

theorem datedAssign_eq (thr : Int) (l : List Record) :
    datedAssign thr l = assignD thr ((sortByDate l).map (fun r => r.date)) := by
  rw [datedAssign]
  cases hs : sortByDate l with
  | nil => rfl
  | cons r rs =>
    rw [assignSessions, List.map_cons, List.map_cons, assignD]
    rw [sessionIdTail_map_date thr r.date 0 rs]

/-- C7: segmentation is deterministic and depends only on the sorted
timestamp sequence and the threshold: any two inputs whose time-sorted
date sequences coincide produce identical session tables, and identical
binge tables. (The segmenter is a pure function of its input, so two
runs on one input coincide as the special case `l₁ = l₂`.) -/
theorem claim7_determinism (thr : Int) (l₁ l₂ : List Record)
    (h : (sortByDate l₁).map (fun r => r.date) =
      (sortByDate l₂).map (fun r => r.date)) :
    sessionTable thr l₁ = sessionTable thr l₂ ∧
    bingeAnalysis l₁ = bingeAnalysis l₂ := by
  have htab : ∀ thr' : Int, sessionTable thr' l₁ = sessionTable thr' l₂ := by
    intro thr'
    rw [sessionTable, sessionTable, datedAssign_eq, datedAssign_eq, h]
  exact ⟨htab thr, by rw [bingeAnalysis, bingeAnalysis, htab bingeThreshold]⟩

/-- Two inputs with the same timestamps but different titles, orders and
profile names, for the determinism witness. -/
def sampleListA : List Record :=
  [sampleRec "Inception (2010)" 43201, sampleRec "B" 0, sampleRec "C" 21600]

def sampleListB : List Record :=
  [sampleRec "Stranger Things: S1E1" 0, sampleRec "Y" 21600, sampleRec "Z" 43201]

theorem claim7_determinism_witness :
    sessionTable bingeThreshold sampleListA = sessionTable bingeThreshold sampleListB ∧
    bingeAnalysis sampleListA = bingeAnalysis sampleListB :=
  claim7_determinism bingeThreshold sampleListA sampleListB (by decide)

/-! ### The classification heuristic, characterised -/

/-- The claim's reading of the pattern: the title text contains a literal
`(`, then four ASCII digits, then `)`, somewhere in the string. -/
def ContainsParenYear (s : String) : Prop :=
  ∃ pre a b c d post, s.data = pre ++ '(' :: a :: b :: c :: d :: ')' :: post ∧
    a.isDigit = true ∧ b.isDigit = true ∧ c.isDigit = true ∧ d.isDigit = true

/-- The source's reading: the four characters are digits of the regex
engine's `\d` class, i.e. Unicode decimal digits (category Nd). -/
def ContainsParenDigits (s : String) : Prop :=
  ∃ pre a b c d post, s.data = pre ++ '(' :: a :: b :: c :: d :: ')' :: post ∧
    isPyDigit a = true ∧ isPyDigit b = true ∧ isPyDigit c = true ∧
    isPyDigit d = true

theorem startsWithYearParenBy_iff (isD : Char → Bool) (cs : List Char) :
    startsWithYearParenBy isD cs = true ↔
      ∃ a b c d post, cs = '(' :: a :: b :: c :: d :: ')' :: post ∧
        isD a = true ∧ isD b = true ∧ isD c = true ∧ isD d = true := by
  rcases cs with _ | ⟨c0, _ | ⟨c1, _ | ⟨c2, _ | ⟨c3, _ | ⟨c4, _ | ⟨c5, t⟩⟩⟩⟩⟩⟩
  case nil => simp [startsWithYearParenBy]
  case cons.nil => simp [startsWithYearParenBy]
  case cons.cons.nil => simp [startsWithYearParenBy]
  case cons.cons.cons.nil => simp [startsWithYearParenBy]
  case cons.cons.cons.cons.nil => simp [startsWithYearParenBy]
  case cons.cons.cons.cons.cons.nil => simp [startsWithYearParenBy]
  constructor
  · intro h
    have h05 : c0 = '(' ∧ c5 = ')' ∧ isD c1 = true ∧ isD c2 = true ∧
        isD c3 = true ∧ isD c4 = true := by
      by_cases h0 : c0 = '('
      · by_cases h5 : c5 = ')'
        · subst h0; subst h5
          simp only [startsWithYearParenBy, Bool.and_eq_true] at h
          exact ⟨rfl, rfl, h.1.1.1, h.1.1.2, h.1.2, h.2⟩
        · exfalso
          subst h0
          rw [startsWithYearParenBy.eq_def] at h
          split at h
          · rename_i heq
            injection heq with e0 heq
            injection heq with e1 heq
            injection heq with e2 heq
            injection heq with e3 heq
            injection heq with e4 heq
            injection heq with e5 heq
            exact h5 e5
          · exact Bool.false_ne_true h
      · exfalso
        rw [startsWithYearParenBy.eq_def] at h
        split at h
        · rename_i heq
          injection heq with e0 heq
          exact h0 e0
        · exact Bool.false_ne_true h
    obtain ⟨h0, h5, d1, d2, d3, d4⟩ := h05
    subst h0; subst h5
    exact ⟨c1, c2, c3, c4, t, rfl, d1, d2, d3, d4⟩
  · rintro ⟨a, b, c, d, post, heq, da, db, dc, dd⟩
    injection heq with e0 heq
    injection heq with e1 heq
    injection heq with e2 heq
    injection heq with e3 heq
    injection heq with e4 heq
    injection heq with e5 _
    subst e0; subst e1; subst e2; subst e3; subst e4; subst e5
    simp [startsWithYearParenBy, da, db, dc, dd]

theorem containsYearParenAuxBy_iff (isD : Char → Bool) (cs : List Char) :
    containsYearParenAuxBy isD cs = true ↔
      ∃ pre a b c d post, cs = pre ++ '(' :: a :: b :: c :: d :: ')' :: post ∧
        isD a = true ∧ isD b = true ∧ isD c = true ∧ isD d = true := by
  induction cs with
  | nil =>
    simp only [containsYearParenAuxBy]
    constructor
    · intro h
      exact absurd h Bool.false_ne_true
    · rintro ⟨pre, a, b, c, d, post, heq, -⟩
      cases pre <;> simp at heq
  | cons c0 rest ih =>
    rw [containsYearParenAuxBy, Bool.or_eq_true, startsWithYearParenBy_iff, ih]
    constructor
    · rintro (⟨a, b, c, d, post, heq, das⟩ | ⟨pre, a, b, c, d, post, heq, das⟩)
      · exact ⟨[], a, b, c, d, post, by simp [heq], das⟩
      · exact ⟨c0 :: pre, a, b, c, d, post, by simp [heq], das⟩
    · rintro ⟨pre, a, b, c, d, post, heq, das⟩
      cases pre with
      | nil =>
        left
        exact ⟨a, b, c, d, post, by simpa using heq, das⟩
      | cons p ps =>
        right
        rw [List.cons_append] at heq
        injection heq with hp hrest
        exact ⟨ps, a, b, c, d, post, hrest, das⟩

theorem containsYearParen_iff (s : String) :
    containsYearParen s = true ↔ ContainsParenDigits s := by
  rw [containsYearParen, containsYearParenAuxBy_iff]
  rfl

/-- Every record of a successful `clean_data` run comes from one input
row via `mkRecord` at that row's parsed timestamp. -/
theorem cleanData_mem (p : String → Option Int) :
    ∀ (rows : List RawRow) (out : List Record),
      cleanData p rows = Except.ok out →
      ∀ r ∈ out, ∃ row d, row ∈ rows ∧ p row.date = some d ∧ r = mkRecord row d
  | [], out, hok => by
    rw [cleanData] at hok
    injection hok with hout
    subst hout
    intro r hr
    exact absurd hr (List.not_mem_nil r)
  | row :: rows, out, hok => by
    rw [cleanData] at hok
    cases hp : p row.date with
    | none =>
      rw [hp] at hok
      exact absurd hok (by simp)
    | some d =>
      rw [hp] at hok
      cases hrec : cleanData p rows with
      | error e =>
        rw [hrec] at hok
        exact absurd hok (by simp [Except.map])
      | ok out' =>
        rw [hrec] at hok
        simp only [Except.map] at hok
        injection hok with hout
        subst hout
        intro r hr
        rcases List.mem_cons.mp hr with hhead | htail
        · exact ⟨row, d, List.mem_cons_self row rows, hp, hhead⟩
        · obtain ⟨row', d', hm, hp', hr'⟩ := cleanData_mem p rows out' hrec r htail
          exact ⟨row', d', List.mem_cons_of_mem row hm, hp', hr'⟩

/-- A title whose parenthesized year is written in Arabic-Indic digits:
these are in the regex engine's `\d` class but are not ASCII digits. -/
def arabicRow : RawRow :=
  { title := "Movie (٢٠١٠)", date := "z", profile_name := none }

/-- C6 counterexample: normalizing a title with an Arabic-Indic
parenthesized year sets `is_movie` (the source's `\d` matches any Unicode
decimal digit), yet the title contains no literal `(` followed by four
ASCII digits followed by `)` — so `is_movie` is not equivalent to the
ASCII reading of the pattern. -/
theorem claim6_counterexample :
    cleanData trivialParse [arabicRow] = Except.ok [mkRecord arabicRow 0] ∧
    (mkRecord arabicRow 0).is_movie = true ∧
    ¬ ContainsParenYear (mkRecord arabicRow 0).title := by
  refine ⟨rfl, by decide, ?_⟩
  intro h
  exact absurd
    ((containsYearParenAuxBy_iff Char.isDigit
      ((mkRecord arabicRow 0).title).data).mpr h)
    (by decide)

/-- C6 amended: for every normalized output record, `is_movie` holds
exactly when the title contains a literal `(`, four decimal digits of the
regex engine's `\d` class (Unicode category Nd — ASCII digits included,
but also e.g. Arabic-Indic digits), and `)`; `is_tv_show` is its
negation, and exactly one of the two flags holds. -/
theorem claim6_classification (p : String → Option Int) (rows : List RawRow)
    (out : List Record) (hok : cleanData p rows = Except.ok out)
    (r : Record) (hr : r ∈ out) :
    (r.is_movie = true ↔ ContainsParenDigits r.title) ∧
    r.is_tv_show = !r.is_movie ∧
    xor r.is_movie r.is_tv_show = true := by
  obtain ⟨row, d, -, -, hrec⟩ := cleanData_mem p rows out hok r hr
  subst hrec
  refine ⟨?_, rfl, ?_⟩
  · rw [show (mkRecord row d).is_movie = containsYearParen row.title from rfl]
    rw [show (mkRecord row d).title = row.title from rfl]
    exact containsYearParen_iff row.title
  · cases h : containsYearParen row.title <;>
      simp [mkRecord, h]

def movieRow : RawRow :=
  { title := "Inception (2010)", date := "x", profile_name := none }

def tvRow : RawRow :=
  { title := "Stranger Things: S1E1", date := "y", profile_name := none }

def movieRec : Record := mkRecord movieRow 0

def tvRec : Record := mkRecord tvRow 0

def witnessRows : List RawRow := [movieRow, tvRow]

def witnessOut : List Record := [movieRec, tvRec]

theorem claim6_classification_witness :
    ((movieRec.is_movie = true ↔ ContainsParenDigits movieRec.title) ∧
      movieRec.is_tv_show = !movieRec.is_movie ∧
      xor movieRec.is_movie movieRec.is_tv_show = true) ∧
    movieRec.is_movie = true ∧
    tvRec.is_movie = false :=
  ⟨claim6_classification trivialParse witnessRows witnessOut rfl movieRec
      (List.mem_cons_self _ _),
    by decide, by decide⟩

/-! ### Fail-fast timestamp parsing and normalizer shape -/

/-- `cleanData` fails with `malformedTimestamp` at the first row whose
date does not parse. -/
theorem cleanData_error_at (p : String → Option Int) :
    ∀ (rows : List RawRow) (i : Nat) (h : i < rows.length),
      p ((rows.get ⟨i, h⟩)).date = none →
      (∀ j (hj : j < i), p ((rows.get ⟨j, Nat.lt_trans hj h⟩)).date ≠ none) →
      cleanData p rows =
        Except.error (CleanError.malformedTimestamp ((rows.get ⟨i, h⟩)).date)
  | [], i, h, _, _ => absurd h (Nat.not_lt_zero i)
  | row :: rows, 0, _, hfail, _ => by
    rw [cleanData]
    rw [show p row.date = none from hfail]
    rfl
  | row :: rows, i + 1, h, hfail, hpre => by
    have h0 : p row.date ≠ none := hpre 0 (Nat.succ_pos i)
    cases hp : p row.date with
    | none => exact absurd hp h0
    | some d =>
      rw [cleanData, hp]
      rw [cleanData_error_at p rows i (Nat.lt_of_succ_lt_succ h) hfail
        (fun j hj => hpre (j + 1) (Nat.succ_lt_succ hj))]
      rfl

/-- C8: if some row's date is unparseable then normalization fails with
`malformedTimestamp` on the first such row, the whole run terminates with
that error, and no normalized output is produced at all. -/
theorem claim8_parse_fail_fast (p : String → Option Int) (rows : List RawRow)
    (i : Nat) (h : i < rows.length)
    (hfail : p ((rows.get ⟨i, h⟩)).date = none)
    (hpre : ∀ j (hj : j < i), p ((rows.get ⟨j, Nat.lt_trans hj h⟩)).date ≠ none) :
    cleanData p rows =
      Except.error (CleanError.malformedTimestamp ((rows.get ⟨i, h⟩)).date) ∧
    runAnalysis p rows =
      Except.error (RunError.clean
        (CleanError.malformedTimestamp ((rows.get ⟨i, h⟩)).date)) ∧
    ∀ out, cleanData p rows ≠ Except.ok out := by
  have hcd := cleanData_error_at p rows i h hfail hpre
  refine ⟨hcd, ?_, ?_⟩
  · rw [runAnalysis.eq_def, hcd]
  · intro out
    rw [hcd]
    simp

/-- A parse function with one rejected date string, for the witness. -/
def badParse (s : String) : Option Int := if s = "BAD" then none else some 0

def badRow : RawRow := { title := "T", date := "BAD", profile_name := none }

theorem claim8_parse_fail_fast_witness :
    cleanData badParse [movieRow, badRow] =
      Except.error (CleanError.malformedTimestamp "BAD") ∧
    runAnalysis badParse [movieRow, badRow] =
      Except.error (RunError.clean (CleanError.malformedTimestamp "BAD")) ∧
    ∀ out, cleanData badParse [movieRow, badRow] ≠ Except.ok out :=
  claim8_parse_fail_fast badParse [movieRow, badRow] 1 (by decide) (by decide)
    (fun j hj => by
      have hj0 : j = 0 := by omega
      subst hj0
      show badParse movieRow.date ≠ none
      decide)

/-- C9: on success the normalizer emits exactly one record per input row,
in input row order: the i-th output record is the derived record of the
i-th input row at its parsed timestamp. -/
theorem claim9_normalizer_shape (p : String → Option Int) :
    ∀ (rows : List RawRow) (out : List Record),
      cleanData p rows = Except.ok out →
      out.length = rows.length ∧
      ∀ i (hi : i < rows.length) (ho : i < out.length),
        ∃ d, p ((rows.get ⟨i, hi⟩)).date = some d ∧
          out.get ⟨i, ho⟩ = mkRecord (rows.get ⟨i, hi⟩) d
  | [], out, hok => by
    rw [cleanData] at hok
    injection hok with hout
    subst hout
    exact ⟨rfl, fun i hi _ => absurd hi (Nat.not_lt_zero i)⟩
  | row :: rows, out, hok => by
    rw [cleanData] at hok
    cases hp : p row.date with
    | none =>
      rw [hp] at hok
      exact absurd hok (by simp)
    | some d =>
      rw [hp] at hok
      cases hrec : cleanData p rows with
      | error e =>
        rw [hrec] at hok
        exact absurd hok (by simp [Except.map])
      | ok out' =>
        rw [hrec] at hok
        simp only [Except.map] at hok
        injection hok with hout
        subst hout
        obtain ⟨hlen, hidx⟩ := claim9_normalizer_shape p rows out' hrec
        refine ⟨by simp [hlen], ?_⟩
        intro i hi ho
        cases i with
        | zero => exact ⟨d, hp, rfl⟩
        | succ i => exact hidx i (Nat.lt_of_succ_lt_succ hi) (Nat.lt_of_succ_lt_succ ho)

theorem claim9_normalizer_shape_witness :
    witnessOut.length = witnessRows.length ∧
    (∃ d, trivialParse ((witnessRows.get ⟨0, by decide⟩)).date = some d ∧
      witnessOut.get ⟨0, by decide⟩ =
        mkRecord (witnessRows.get ⟨0, by decide⟩) d) ∧
    (∃ d, trivialParse ((witnessRows.get ⟨1, by decide⟩)).date = some d ∧
      witnessOut.get ⟨1, by decide⟩ =
        mkRecord (witnessRows.get ⟨1, by decide⟩) d) :=
  ⟨(claim9_normalizer_shape trivialParse witnessRows witnessOut rfl).1,
    (claim9_normalizer_shape trivialParse witnessRows witnessOut rfl).2 0
      (by decide) (by decide),
    (claim9_normalizer_shape trivialParse witnessRows witnessOut rfl).2 1
      (by decide) (by decide)⟩

/-! ### Frame effects: the functions mutate only copies

To state that `clean_data` and `binge_analysis` leave the caller's frame
untouched, data frames live in an explicit store of references; each
function reads its argument reference, allocates a copy, and performs
its in-place column writes (`rename(inplace=True)`, the derived-column
assignments, `time_diff`/`new_session`/`session_id`) on the copy. -/

structure Store (α : Type) where
  next : Nat
  mem : List (Nat × α)

def Store.lookup {α : Type} : List (Nat × α) → Nat → Option α
  | [], _ => none
  | q :: t, r => if q.1 = r then some q.2 else Store.lookup t r

def Store.get? {α : Type} (s : Store α) (r : Nat) : Option α :=
  Store.lookup s.mem r

def Store.alloc {α : Type} (s : Store α) (a : α) : Store α × Nat :=
  ({ next := s.next + 1, mem := (s.next, a) :: s.mem }, s.next)

def Store.set {α : Type} (s : Store α) (r : Nat) (a : α) : Store α :=
  { s with mem := s.mem.map (fun q => if q.1 = r then (r, a) else q) }

/-- References held in a store are strictly below its allocation bound. -/
def Store.WF {α : Type} (s : Store α) : Prop := ∀ q ∈ s.mem, q.1 < s.next

theorem Store.lookup_mem {α : Type} :
    ∀ (l : List (Nat × α)) (r : Nat) (v : α),
      Store.lookup l r = some v → ∃ q ∈ l, q.1 = r
  | [], r, v, h => absurd h (by simp [Store.lookup])
  | q :: t, r, v, h => by
    by_cases hq : q.1 = r
    · exact ⟨q, List.mem_cons_self q t, hq⟩
    · rw [Store.lookup, if_neg hq] at h
      obtain ⟨q', hm, hr⟩ := Store.lookup_mem t r v h
      exact ⟨q', List.mem_cons_of_mem q hm, hr⟩

theorem Store.get?_eq_some_lt {α : Type} {s : Store α} {r : Nat} {v : α}
    (h : s.get? r = some v) (hwf : s.WF) : r < s.next := by
  obtain ⟨q, hm, hr⟩ := Store.lookup_mem s.mem r v h
  have hlt := hwf q hm
  omega

theorem Store.get?_alloc {α : Type} (s : Store α) (a : α) (r : Nat)
    (h : r < s.next) : ((s.alloc a).1).get? r = s.get? r := by
  have hne : ¬ s.next = r := by omega
  simp [Store.alloc, Store.get?, Store.lookup, hne]

theorem lookup_map_set {α : Type} (r r' : Nat) (a : α) (h : r ≠ r') :
    ∀ l : List (Nat × α),
      Store.lookup (l.map (fun q => if q.1 = r' then (r', a) else q)) r =
        Store.lookup l r
  | [] => rfl
  | q :: t => by
    by_cases hq : q.1 = r'
    · have h2 : ¬ r' = r := fun hc => h hc.symm
      have h3 : ¬ q.1 = r := by omega
      simp [Store.lookup, hq, h2, h3, lookup_map_set r r' a h t]
    · by_cases hr : q.1 = r
      · simp [Store.lookup, hq, hr, h]
      · simp [Store.lookup, hq, hr, lookup_map_set r r' a h t]

theorem Store.get?_set_ne {α : Type} (s : Store α) (r r' : Nat) (a : α)
    (h : r ≠ r') : (s.set r' a).get? r = s.get? r := by
  simp only [Store.set, Store.get?]
  rw [lookup_map_set r r' a h s.mem]

/-- The stages a frame reference can hold along the pipeline. -/
inductive DFState where
  | raw (rows : List RawRow)
  | cleaned (recs : List Record)
  | annotated (rows : List (Record × Nat))
  | table (t : List SessionRow)
  deriving DecidableEq, Repr

/-- `clean_data` over the store: copy the argument frame
(`clean_df = df.copy()`), rename columns in place on the copy, parse the
dates and write the derived columns onto the copy, and return the copy's
reference; the argument reference is never written. -/
def cleanDataS (p : String → Option Int) (s : Store DFState) (r : Nat) :
    Store DFState × Except CleanError Nat :=
  match s.get? r with
  | some (DFState.raw rows) =>
    let rc := s.next
    let s1 := (s.alloc (DFState.raw rows)).1
    let s2 := s1.set rc (DFState.raw rows)
    match cleanData p rows with
    | Except.error e => (s2, Except.error e)
    | Except.ok recs => (s2.set rc (DFState.cleaned recs), Except.ok rc)
  | _ => (s, Except.error CleanError.noFrame)

/-- `binge_analysis` over the store: `df_sorted = df.sort_values('date').copy()`
allocates the sorted copy, the `time_diff`/`new_session`/`session_id`
columns are written onto that copy, and the aggregated (filtered) result
is a fresh frame whose reference is returned. -/
def bingeAnalysisS (s : Store DFState) (r : Nat) :
    Store DFState × Except CleanError Nat :=
  match s.get? r with
  | some (DFState.cleaned recs) =>
    let rs := s.next
    let s1 := (s.alloc (DFState.cleaned (sortByDate recs))).1
    let s2 := s1.set rs
      (DFState.annotated (assignSessions bingeThreshold (sortByDate recs)))
    let s3 := (s2.alloc (DFState.table (bingeAnalysis recs))).1
    (s3, Except.ok s2.next)
  | _ => (s, Except.error CleanError.noFrame)

/-- C10: neither normalization nor segmentation mutates its input frame:
in any well-formed store, the caller's reference holds the same frame
after `clean_data` (which works on a copy) and after `binge_analysis`
(which sorts and annotates a copy) as before. -/
theorem claim10_no_mutation (p : String → Option Int) (s : Store DFState)
    (r : Nat) (hwf : s.WF) (rows : List RawRow) (recs : List Record) :
    (s.get? r = some (DFState.raw rows) →
      ((cleanDataS p s r).1).get? r = some (DFState.raw rows)) ∧
    (s.get? r = some (DFState.cleaned recs) →
      ((bingeAnalysisS s r).1).get? r = some (DFState.cleaned recs)) := by
  constructor
  · intro hget
    have hlt := Store.get?_eq_some_lt hget hwf
    have hne : r ≠ s.next := by omega
    rw [cleanDataS.eq_def, hget]
    cases hcd : cleanData p rows with
    | error e =>
      simp only [hcd]
      rw [Store.get?_set_ne _ _ _ _ hne, Store.get?_alloc _ _ _ hlt]
      exact hget
    | ok out =>
      simp only [hcd]
      rw [Store.get?_set_ne _ _ _ _ hne, Store.get?_set_ne _ _ _ _ hne,
        Store.get?_alloc _ _ _ hlt]
      exact hget
  · intro hget
    have hlt := Store.get?_eq_some_lt hget hwf
    have hne : r ≠ s.next := by omega
    rw [bingeAnalysisS.eq_def, hget]
    simp only
    rw [Store.get?_alloc _ _ _ (Nat.lt_succ_of_lt hlt)]
    rw [Store.get?_set_ne _ _ _ _ hne, Store.get?_alloc _ _ _ hlt]
    exact hget

def rawStore : Store DFState := { next := 1, mem := [(0, DFState.raw [movieRow])] }

def cleanedStore : Store DFState :=
  { next := 1, mem := [(0, DFState.cleaned [movieRec])] }

theorem rawStore_wf : rawStore.WF := by
  intro q hq
  simp only [rawStore, List.mem_singleton] at hq
  subst hq
  decide

theorem cleanedStore_wf : cleanedStore.WF := by
  intro q hq
  simp only [cleanedStore, List.mem_singleton] at hq
  subst hq
  decide

theorem claim10_no_mutation_witness :
    ((cleanDataS trivialParse rawStore 0).1).get? 0 =
      some (DFState.raw [movieRow]) ∧
    ((bingeAnalysisS cleanedStore 0).1).get? 0 =
      some (DFState.cleaned [movieRec]) :=
  ⟨(claim10_no_mutation trivialParse rawStore 0 rawStore_wf [movieRow] []).1 rfl,
    (claim10_no_mutation trivialParse cleanedStore 0 cleanedStore_wf []
      [movieRec]).2 rfl⟩

end Netflix
